import Mathlib

/-!
Verification development for the rust-httpie command-line HTTP client
(`src/main.rs`). The program's key/value token parser, URL validator,
request builders for the `get` and `post` subcommands, content-type
extraction and response rendering are shallowly embedded below; machine
strings are modelled as lists of characters so that the splitting
behaviour of the source can be reasoned about by induction.
-/

set_option autoImplicit false

namespace RustHttpie

/-- Machine strings are modelled as lists of characters. -/
abbrev Str := List Char

/-- Coerce a Lean string literal to the character-list model. -/
def str (s : String) : Str := s.data

/-- Prepend a character to the first chunk of a chunk list (used to state
the recursive behaviour of splitting). An empty chunk list yields one
chunk holding the character alone. -/
def consHead (c : Char) : List Str → List Str
  | [] => [[c]]
  | p :: ps => (c :: p) :: ps

/-- Rust `s.split("=")`: the chunks of `s` between occurrences of the
character `=`. Always yields at least one chunk, like the Rust iterator. -/
def splitEq : Str → List Str
  | [] => [[]]
  | c :: rest => if c = '=' then [] :: splitEq rest else consHead c (splitEq rest)

/-- Rust `s.split(":=")`: chunks of `s` between non-overlapping, left-to-right
occurrences of the two-character separator `:=`. -/
def splitColonEq : Str → List Str
  | [] => [[]]
  | [c] => [[c]]
  | a :: b :: rest =>
    if a = ':' ∧ b = '=' then [] :: splitColonEq rest
    else consHead a (splitColonEq (b :: rest))

/-- Rust `s.contains(":=")`: does `s` have a `:` immediately followed by `=`? -/
def containsColonEq : Str → Bool
  | [] => false
  | [_] => false
  | a :: b :: rest => (a = ':' && b = '=') || containsColonEq (b :: rest)

/-- `KvPair` from `src/main.rs`: a raw command-line `key=value` /
`key:=value` token parsed into its two components. The source struct has
exactly the fields `k` and `v`; it carries no operator tag. -/
structure KvPair where
  k : Str
  v : Str
deriving Repr, DecidableEq

/-- `KvPair::from_str` from `src/main.rs`: split on `=`, unless the token
contains `:=`, in which case split on `:=`; the first chunk becomes the
key and the second chunk the value (`split.next()` twice); `None` from the
iterator — i.e. fewer than two chunks — is the error case. -/
def KvPair.from_str (s : Str) : Option KvPair :=
  match (if containsColonEq s then splitColonEq s else splitEq s) with
  | k :: v :: _ => some ⟨k, v⟩
  | _ => none

/-- `parse_kv_pair` from `src/main.rs`: delegates to `KvPair::from_str`. -/
def parse_kv_pair (s : Str) : Option KvPair := KvPair.from_str s

/-- A parsed absolute URL: scheme, host, and the remaining path portion. -/
structure Url where
  scheme : Str
  host : Str
  path : Str
deriving Repr, DecidableEq

/-- Split a string at the first occurrence of `://`, yielding the part
before it and the part after it. -/
def splitSchemeSep : Str → Option (Str × Str)
  | [] => none
  | ':' :: '/' :: '/' :: rest => some ([], rest)
  | c :: rest => (splitSchemeSep rest).map (fun p => (c :: p.1, p.2))

/-- Modelled from the spec: the external url library's parse at its
interface boundary — it succeeds exactly when the string is an absolute
URL, i.e. a scheme (non-empty, alphabetic) followed by `://` and a
non-empty host, the rest being the path. -/
def Url.parse (s : Str) : Option Url :=
  match splitSchemeSep s with
  | none => none
  | some (sch, rest) =>
    if sch ≠ [] ∧ sch.all Char.isAlpha ∧ rest.takeWhile (· ≠ '/') ≠ [] then
      some ⟨sch, rest.takeWhile (· ≠ '/'), rest.dropWhile (· ≠ '/')⟩
    else none

/-- `parse_url` from `src/main.rs`: delegate validation to the url
library's parse, discard the parsed value, and return the original input
string unchanged. -/
def parse_url (s : Str) : Option Str := (Url.parse s).map (fun _ => s)

/-- Rust `String::to_lowercase`, restricted to the character-wise case
mapping (the header names compared in the source are ASCII). -/
def lowerStr (s : Str) : Str := s.map Char.toLower

/-- The header name inserted by the `get` handler: the `AUTHORIZATION`
constant of the header library, whose canonical text is lowercase. -/
def authName : Str := str "authorization"

/-- Modelled from the spec: header-value construction
(`HeaderValue::from_str`) at its interface boundary — fails when the
value holds characters illegal in an HTTP header (control characters);
legal characters are horizontal tab and the byte range 32–255 minus
delete. -/
def headerValueParse (v : Str) : Option Str :=
  if ∀ c ∈ v, c.toNat = 9 ∨ (32 ≤ c.toNat ∧ c.toNat ≠ 127) then some v else none

/-- Map insertion with replacement, as `HashMap::insert` /
`HeaderMap::insert` behave: an existing entry for the key is overwritten
in place, otherwise the entry is appended. -/
def mapInsert (m : List (Str × Str)) (k v : Str) : List (Str × Str) :=
  match m with
  | [] => [(k, v)]
  | e :: rest => if e.1 = k then (k, v) :: rest else e :: mapInsert rest k v

/-- The HTTP methods used by the program. -/
inductive Method where
  | GET
  | POST
deriving Repr, DecidableEq

/-- The outgoing request assembled by a handler: method, URL, query
pairs, header map, and optional JSON body object. -/
structure Request where
  method : Method
  url : Str
  query : List (Str × Str)
  headers : List (Str × Str)
  jsonBody : Option (List (Str × Str))
deriving Repr, DecidableEq

/-- The `Get` argument struct from `src/main.rs`. -/
structure Get where
  url : Str
  header : List KvPair
  query : List KvPair
deriving Repr, DecidableEq

/-- The `Post` argument struct from `src/main.rs`. -/
structure Post where
  url : Str
  body : List KvPair
  header : List KvPair
deriving Repr, DecidableEq

/-- The header loop of the `get` handler: walk the supplied header pairs
in order; a pair whose lowercased key is `authorization` has its value
parsed as a header value (failure aborts the request, the `?` operator)
and inserted under `AUTHORIZATION`; every other pair is skipped. -/
def getHeadersAux : List KvPair → List (Str × Str) → Option (List (Str × Str))
  | [], acc => some acc
  | p :: rest, acc =>
    if lowerStr p.k = authName then
      match headerValueParse p.v with
      | none => none
      | some hv => getHeadersAux rest (mapInsert acc authName hv)
    else getHeadersAux rest acc

/-- The header map the `get` handler builds from its argument list,
starting from the empty `HeaderMap`. -/
def getHeaders (hs : List KvPair) : Option (List (Str × Str)) :=
  getHeadersAux hs []

/-- The `get` handler from `src/main.rs`, up to the network send: build
the allowlisted header map, then issue a GET for the stored URL with the
query pairs and those headers on top of the client's defaults. -/
def get (defaults : List (Str × Str)) (args : Get) : Option Request :=
  (getHeaders args.header).map fun hm =>
    { method := Method.GET, url := args.url,
      query := args.query.map (fun p => (p.k, p.v)),
      headers := defaults ++ hm, jsonBody := none }

/-- The `Content-Type: application/json` header set by `.json(..)`. -/
def contentTypeJson : Str × Str := (str "content-type", str "application/json")

/-- The body map of the `post` handler: insert each body pair into a
fresh `HashMap`, so a repeated key keeps its last value. -/
def postBody (ps : List KvPair) : List (Str × Str) :=
  ps.foldl (fun m p => mapInsert m p.k p.v) []

/-- The `post` handler from `src/main.rs`, up to the network send: POST
to the stored URL, the body pairs serialized as one flat JSON object via
`.json(&body)`, which also sets `Content-Type: application/json`. The
handler never reads `args.header`. -/
def post (defaults : List (Str × Str)) (args : Post) : Request :=
  { method := Method.POST, url := args.url, query := [],
    headers := defaults ++ [contentTypeJson],
    jsonBody := some (postBody args.body) }

/-- Association-list lookup, the reading of the JSON object built by the
`post` handler as a key-to-value mapping. -/
def mapLookup : List (Str × Str) → Str → Option Str
  | [], _ => none
  | e :: rest, key => if e.1 = key then some e.2 else mapLookup rest key

/-- The value of the last pair with the given key in a pair list — the
specification of last-write-wins. -/
def lastValue (key : Str) : List KvPair → Option Str
  | [] => none
  | p :: rest =>
    match lastValue key rest with
    | some w => some w
    | none => if p.k = key then some p.v else none

/-- A parsed media type: top-level type and subtype. -/
structure Mime where
  ty : Str
  subtype : Str
deriving Repr, DecidableEq

/-- Characters allowed in a media-type token. -/
def isMimeTokenChar (c : Char) : Bool :=
  c.isAlphanum || c == '-' || c == '+' || c == '.'

/-- Modelled from the spec: the external mime library's parse at its
interface boundary — a media type of the shape `type/subtype`, with
optional `;`-separated parameters dropped and both tokens stored
case-insensitively (lowercased); any other shape fails. -/
def Mime.parse (s : Str) : Option Mime :=
  match (s.takeWhile (· ≠ ';')).dropWhile (· ≠ '/') with
  | '/' :: sub =>
    if (s.takeWhile (· ≠ ';')).takeWhile (· ≠ '/') ≠ [] ∧ sub ≠ []
        ∧ ((s.takeWhile (· ≠ ';')).takeWhile (· ≠ '/')).all isMimeTokenChar
        ∧ sub.all isMimeTokenChar
    then some ⟨lowerStr ((s.takeWhile (· ≠ ';')).takeWhile (· ≠ '/')), lowerStr sub⟩
    else none
  | _ => none

/-- A completed HTTP response as the renderer sees it: protocol version,
status, headers in arrival order (names in their wire case, values as raw
character data), and the body text. -/
structure Response where
  version : Str
  status : Str
  headers : List (Str × Str)
  body : Str
deriving Repr, DecidableEq

/-- `HeaderMap::get`: the first header entry whose (case-insensitive)
name matches, yielding its value. -/
def headerGet : List (Str × Str) → Str → Option Str
  | [], _ => none
  | e :: rest, name => if lowerStr e.1 = name then some e.2 else headerGet rest name

/-- Modelled from the spec: `HeaderValue::to_str` at its interface
boundary — succeeds exactly when every character of the value is visible
ASCII (codes 32–126). -/
def headerToStr (v : Str) : Option Str :=
  if ∀ c ∈ v, 32 ≤ c.toNat ∧ c.toNat ≤ 126 then some v else none

/-- The `CONTENT_TYPE` header name constant. -/
def contentTypeName : Str := str "content-type"

/-- `get_content_type` from `src/main.rs`:
`resp.headers().get(CONTENT_TYPE).map(|v| v.to_str().unwrap().parse().unwrap())`.
The outer `none` models a panic of one of the two `unwrap`s; `some none`
is the absent-header case; `some (some m)` the parsed media type. -/
def get_content_type (resp : Response) : Option (Option Mime) :=
  match headerGet resp.headers contentTypeName with
  | none => some none
  | some v =>
    match headerToStr v with
    | none => none
    | some s =>
      match Mime.parse s with
      | none => none
      | some m => some (some m)

/-- One terminal write performed by the renderer. -/
inductive OutputItem where
  | statusLine (version status : Str)
  | blank
  | headerLine (name value : Str)
  | highlighted (ext line : Str)
  | raw (mime : Option Mime) (body : Str)
deriving Repr, DecidableEq

/-- Rust `str::split('\n')` on the character-list model. -/
def splitNewline : Str → List Str
  | [] => [[]]
  | c :: rest =>
    if c = '\n' then [] :: splitNewline rest else consHead c (splitNewline rest)

/-- Strip one trailing carriage return, as `str::lines` does per line. -/
def stripCR (l : Str) : Str :=
  if l.getLast? = some '\r' then l.dropLast else l

/-- Rust `str::lines`: split on newlines, drop a final empty chunk, strip
one trailing `\r` from each line. -/
def strLines (s : Str) : List Str :=
  (if (splitNewline s).getLast? = some []
   then (splitNewline s).dropLast else splitNewline s).map stripCR

/-- `print_syntect` from `src/main.rs`: highlight the text line by line
under the grammar selected by the extension, printing each highlighted
line. -/
def print_syntect (s : Str) (ext : Str) : List OutputItem :=
  (strLines s).map (OutputItem.highlighted ext)

/-- `print_body` from `src/main.rs`, parametric in the external JSON
pretty-printer (`jsonxf::pretty_print`): a `json` subtype is
pretty-printed — `.unwrap()` on that result makes a pretty-print failure
a panic, modelled as `none`, with no fallback — then highlighted; an
`html` subtype is highlighted as-is; anything else is dumped raw in one
write carrying the declared mime and the body. -/
def print_body (pretty : Str → Option Str) (m : Option Mime) (body : Str) :
    Option (List OutputItem) :=
  match m with
  | some v =>
    if v.subtype = str "json" then
      match pretty body with
      | none => none
      | some t => some (print_syntect t (str "json"))
    else if v.subtype = str "html" then some (print_syntect body (str "html"))
    else some [OutputItem.raw m body]
  | none => some [OutputItem.raw m body]

/-- `print_status` from `src/main.rs`: one line with version and status,
then a blank line (`println!("{}\n", status)`). -/
def print_status (resp : Response) : List OutputItem :=
  [OutputItem.statusLine resp.version resp.status, OutputItem.blank]

/-- `print_headers` from `src/main.rs`: one `name: value` line per header
in arrival order, then a blank line. -/
def print_headers (resp : Response) : List OutputItem :=
  resp.headers.map (fun e => OutputItem.headerLine e.1 e.2) ++ [OutputItem.blank]

/-- The terminal writes of one render, and whether it ended in a panic
(after the writes already made). -/
structure RenderOut where
  out : List OutputItem
  panicked : Bool
deriving Repr, DecidableEq

/-- `print_resp` from `src/main.rs`: print the status block, the header
block, then extract the content type (a malformed `Content-Type` panics
here) and dispatch the body to `print_body` (whose JSON pretty-print
failure also panics). -/
def print_resp (pretty : Str → Option Str) (resp : Response) : RenderOut :=
  match get_content_type resp with
  | none => ⟨print_status resp ++ print_headers resp, true⟩
  | some m =>
    match print_body pretty m resp.body with
    | none => ⟨print_status resp ++ print_headers resp, true⟩
    | some items => ⟨print_status resp ++ print_headers resp ++ items, false⟩

example : KvPair.from_str (str "a") = none := by decide

example : KvPair.from_str (str "a=1") = some ⟨str "a", str "1"⟩ := by decide

example : KvPair.from_str (str "b=") = some ⟨str "b", []⟩ := by decide

example : KvPair.from_str (str "a:=b") = some ⟨str "a", str "b"⟩ := by decide

example : KvPair.from_str (str "a=b:=c") = some ⟨str "a=b", str "c"⟩ := by decide

example : KvPair.from_str (str "=1") = some ⟨[], str "1"⟩ := by decide

example : KvPair.from_str (str "a=b=c") = some ⟨str "a", str "b"⟩ := by decide

example : KvPair.from_str (str "key:value") = none := by decide

theorem consHead_ne_nil (c : Char) (l : List Str) : consHead c l ≠ [] := by
  cases l <;> simp [consHead]

theorem splitEq_ne_nil (s : Str) : splitEq s ≠ [] := by
  cases s with
  | nil => simp [splitEq]
  | cons c rest =>
    by_cases h : c = '='
    · simp [splitEq, h]
    · simp only [splitEq, if_neg h]
      exact consHead_ne_nil _ _

theorem length_consHead (c : Char) (l : List Str) (h : l ≠ []) :
    (consHead c l).length = l.length := by
  cases l with
  | nil => exact absurd rfl h
  | cons p ps => simp [consHead]

theorem two_le_length_splitEq_iff (s : Str) :
    2 ≤ (splitEq s).length ↔ '=' ∈ s := by
  induction s with
  | nil => simp [splitEq]
  | cons c rest ih =>
    by_cases h : c = '='
    · subst h
      have h1 : 1 ≤ (splitEq rest).length :=
        List.length_pos.mpr (splitEq_ne_nil rest)
      have he : splitEq ('=' :: rest) = [] :: splitEq rest := by simp [splitEq]
      rw [he]
      simp only [List.length_cons, List.mem_cons]
      constructor
      · intro _
        exact Or.inl trivial
      · intro _
        omega
    · simp only [splitEq, if_neg h, length_consHead c _ (splitEq_ne_nil rest),
        List.mem_cons]
      rw [ih]
      constructor
      · exact Or.inr
      · rintro (hc | hm)
        · exact absurd hc.symm h
        · exact hm

theorem splitEq_of_not_mem (s : Str) (h : '=' ∉ s) : splitEq s = [s] := by
  induction s with
  | nil => simp [splitEq]
  | cons c rest ih =>
    have hc : c ≠ '=' := fun hc => h (hc ▸ List.mem_cons_self c rest)
    have hr : '=' ∉ rest := fun hm => h (List.mem_cons_of_mem c hm)
    simp [splitEq, hc, ih hr, consHead]

theorem splitEq_append (k v : Str) (h : '=' ∉ k) :
    splitEq (k ++ '=' :: v) = k :: splitEq v := by
  induction k with
  | nil => simp [splitEq]
  | cons c rest ih =>
    have hc : c ≠ '=' := fun hc => h (hc ▸ List.mem_cons_self c rest)
    have hr : '=' ∉ rest := fun hm => h (List.mem_cons_of_mem c hm)
    simp [splitEq, hc, ih hr, consHead]

theorem mem_of_containsColonEq (s : Str) (h : containsColonEq s = true) :
    '=' ∈ s := by
  induction s with
  | nil => simp [containsColonEq] at h
  | cons a t ih =>
    cases t with
    | nil => simp [containsColonEq] at h
    | cons b rest =>
      simp only [containsColonEq, Bool.or_eq_true, Bool.and_eq_true,
        decide_eq_true_eq] at h
      rcases h with ⟨_, hb⟩ | hrec
      · exact hb ▸ List.mem_cons_of_mem a (List.mem_cons_self b rest)
      · exact List.mem_cons_of_mem a (ih hrec)

theorem containsColonEq_eq_false (s : Str) (h : '=' ∉ s) :
    containsColonEq s = false := by
  by_contra hc
  exact h (mem_of_containsColonEq s (Bool.of_not_eq_false hc))

theorem containsColonEq_eq_cons (v : Str) (hv : '=' ∉ v) :
    containsColonEq ('=' :: v) = false := by
  cases v with
  | nil => simp [containsColonEq]
  | cons b r =>
    simp only [containsColonEq, Bool.or_eq_false_iff]
    exact ⟨by simp, containsColonEq_eq_false (b :: r) hv⟩

theorem containsColonEq_append (k v : Str) (hk : ':' ∉ k) (hv : '=' ∉ v) :
    containsColonEq (k ++ '=' :: v) = false := by
  induction k with
  | nil => exact containsColonEq_eq_cons v hv
  | cons a k2 ih =>
    have ha : a ≠ ':' := fun h => hk (h ▸ List.mem_cons_self a k2)
    have hk2 : ':' ∉ k2 := fun h => hk (List.mem_cons_of_mem a h)
    have ih2 := ih hk2
    cases k2 with
    | nil =>
      simp only [List.nil_append, List.cons_append]
      simp only [containsColonEq, Bool.or_eq_false_iff]
      exact ⟨by simp [ha], containsColonEq_eq_cons v hv⟩
    | cons b k3 =>
      simp only [List.cons_append] at ih2 ⊢
      simp only [containsColonEq, Bool.or_eq_false_iff]
      exact ⟨by simp [ha], ih2⟩

theorem splitColonEq_ne_nil : ∀ s : Str, splitColonEq s ≠ []
  | [] => by simp [splitColonEq]
  | [c] => by simp [splitColonEq]
  | a :: b :: rest => by
    by_cases h : a = ':' ∧ b = '='
    · simp [splitColonEq, h]
    · simp only [splitColonEq, if_neg h]
      exact consHead_ne_nil _ _

theorem two_le_length_splitColonEq :
    ∀ s : Str, containsColonEq s = true → 2 ≤ (splitColonEq s).length
  | [] => by simp [containsColonEq]
  | [c] => by simp [containsColonEq]
  | a :: b :: rest => by
    intro h
    by_cases hab : a = ':' ∧ b = '='
    · have h1 : 1 ≤ (splitColonEq rest).length :=
        List.length_pos.mpr (splitColonEq_ne_nil rest)
      simp only [splitColonEq, if_pos hab, List.length_cons]
      omega
    · have hrec : containsColonEq (b :: rest) = true := by
        simp only [containsColonEq, Bool.or_eq_true, Bool.and_eq_true,
          decide_eq_true_eq] at h
        rcases h with ⟨h1, h2⟩ | h2
        · exact absurd ⟨h1, h2⟩ hab
        · exact h2
      have hlen := two_le_length_splitColonEq (b :: rest) hrec
      simp only [splitColonEq, if_neg hab,
        length_consHead a _ (splitColonEq_ne_nil (b :: rest))]
      exact hlen

/-- The parser fails exactly on tokens holding no `=` character at all
(equivalently: holding neither delimiter, since a `:=` occurrence holds
an `=`). An empty key is not rejected. -/
theorem from_str_eq_none_iff (s : Str) : KvPair.from_str s = none ↔ '=' ∉ s := by
  by_cases hc : containsColonEq s = true
  · have h2 := two_le_length_splitColonEq s hc
    have hm := mem_of_containsColonEq s hc
    rcases hl : splitColonEq s with _ | ⟨k, tl⟩
    · exact absurd hl (splitColonEq_ne_nil s)
    · rcases tl with _ | ⟨v, t⟩
      · rw [hl] at h2
        simp at h2
      · have hsome : KvPair.from_str s = some ⟨k, v⟩ := by
          simp [KvPair.from_str, hc, hl]
        simp [hsome, hm]
  · have hb : containsColonEq s = false := by
      revert hc
      cases containsColonEq s <;> simp
    by_cases hm : '=' ∈ s
    · have h2 : 2 ≤ (splitEq s).length := (two_le_length_splitEq_iff s).mpr hm
      rcases hl : splitEq s with _ | ⟨k, tl⟩
      · exact absurd hl (splitEq_ne_nil s)
      · rcases tl with _ | ⟨v, t⟩
        · rw [hl] at h2
          simp at h2
        · have hsome : KvPair.from_str s = some ⟨k, v⟩ := by
            simp [KvPair.from_str, hb, hl]
          simp [hsome, hm]
    · have hsp : splitEq s = [s] := splitEq_of_not_mem s hm
      simp [KvPair.from_str, hb, hsp, hm]

/-- Claim C1, counterexample to the claim as stated: the token `=1` has no
text before its delimiter, yet the parser accepts it, producing the pair
with empty key and value `1` — the empty-key disjunct of the claimed
failure condition does not hold on the code. -/
theorem kv_parse_empty_key_accepted_cex :
    KvPair.from_str (str "=1") = some ⟨[], str "1"⟩ := by decide

/-- Claim C1, amended: the KV-pair parser fails exactly when the token
holds neither the `:=` nor the `=` delimiter (equivalently, no `=`
character); an empty key before the delimiter is accepted, and a trailing
empty value succeeds: `key=` yields the pair with key `key` and empty
value. -/
theorem kv_parse_failure_iff_no_delimiter :
    (∀ s : Str, KvPair.from_str s = none ↔ '=' ∉ s)
    ∧ KvPair.from_str (str "key=") = some ⟨str "key", []⟩ :=
  ⟨from_str_eq_none_iff, by decide⟩

/-- Claim C2, counterexample to the claim as stated: on `a=b=c` (key `a`
with no delimiter, remainder `b=c`), the parser keeps only the chunk
between the first and second `=` as the value — the value is `b`, not the
entire remainder `b=c`. -/
theorem kv_parse_value_truncated_cex :
    KvPair.from_str (str "a=b=c") = some ⟨str "a", str "b"⟩ ∧
      KvPair.from_str (str "a=b=c") ≠ some ⟨str "a", str "b=c"⟩ :=
  ⟨by decide, by decide⟩

/-- Claim C2, amended: when the key holds no `=` and no `:` and the value
holds no further `=` (so no further occurrence of the chosen delimiter and
no `:=`), parsing `k=v` yields exactly the pair (k, v): the value, which
may still hold `:` characters, is preserved verbatim. (When the value does
hold a further `=`, it is truncated at that occurrence, as the
counterexample shows.) -/
theorem kv_parse_value_verbatim :
    ∀ k v : Str, '=' ∉ k → ':' ∉ k → '=' ∉ v →
      KvPair.from_str (k ++ '=' :: v) = some ⟨k, v⟩ := by
  intro k v hk hkc hv
  have hcc : containsColonEq (k ++ '=' :: v) = false :=
    containsColonEq_append k v hkc hv
  have hsp : splitEq (k ++ '=' :: v) = k :: splitEq v := splitEq_append k v hk
  rw [splitEq_of_not_mem v hv] at hsp
  simp [KvPair.from_str, hcc, hsp]

/-- Witness for the amended claim C2 at the concrete token `a=b:c`: the
value `b:c` is kept verbatim, colon included. -/
theorem kv_parse_value_verbatim_wit :
    KvPair.from_str (str "a=b:c") = some ⟨str "a", str "b:c"⟩ :=
  kv_parse_value_verbatim (str "a") (str "b:c") (by decide) (by decide) (by decide)

/-- Claim C3: evaluation of the parser at the failing input `key:value`.
The source only ever splits on `=` (or on `:=` when present); a token
whose sole separator is `:` yields a single chunk, so `from_str` fails —
contradicting the claim (and the doc comment on `KvPair` in the source)
that `key:value` parses, and no Field/JsonField/Header tag is ever
constructed anywhere in the code. -/
theorem kv_parse_colon_token_rejected :
    KvPair.from_str (str "key:value") = none := by decide

/-- Claim C5: the URL validator succeeds exactly when the input parses as
an absolute URL, on success returns the original input unchanged, and on
the concrete inputs of the claim: `abc` fails while `http://abc.xyz` and
`https://host/path` succeed and return their input. -/
theorem parse_url_spec :
    (∀ s t : Str, parse_url s = some t → t = s)
    ∧ (∀ s : Str, (parse_url s).isSome ↔ (Url.parse s).isSome)
    ∧ parse_url (str "abc") = none
    ∧ parse_url (str "http://abc.xyz") = some (str "http://abc.xyz")
    ∧ parse_url (str "https://host/path") = some (str "https://host/path") := by
  refine ⟨?_, ?_, by decide, by decide, by decide⟩
  · intro s t h
    rcases hu : Url.parse s with _ | u
    · rw [parse_url, hu] at h
      simp at h
    · rw [parse_url, hu] at h
      simp at h
      exact h.symm
  · intro s
    rw [parse_url]
    cases Url.parse s <;> simp

/-- Witness for claim C5 at the concrete input `http://abc.xyz`: applying
the round-trip part of the theorem at that input returns it unchanged. -/
theorem parse_url_spec_wit : str "http://abc.xyz" = str "http://abc.xyz" :=
  parse_url_spec.1 (str "http://abc.xyz") (str "http://abc.xyz") (by decide)

theorem mem_mapInsert (m : List (Str × Str)) (k v : Str) (e : Str × Str)
    (h : e ∈ mapInsert m k v) : e ∈ m ∨ e = (k, v) := by
  induction m with
  | nil =>
    simp [mapInsert] at h
    exact Or.inr h
  | cons a rest ih =>
    by_cases hk : a.1 = k
    · rw [mapInsert, if_pos hk] at h
      rcases List.mem_cons.mp h with h1 | h1
      · exact Or.inr h1
      · exact Or.inl (List.mem_cons_of_mem a h1)
    · rw [mapInsert, if_neg hk] at h
      rcases List.mem_cons.mp h with h1 | h1
      · exact Or.inl (h1 ▸ List.mem_cons_self a rest)
      · rcases ih h1 with h2 | h2
        · exact Or.inl (List.mem_cons_of_mem a h2)
        · exact Or.inr h2

theorem getHeadersAux_mem (hs : List KvPair) :
    ∀ (acc hm : List (Str × Str)), getHeadersAux hs acc = some hm →
      ∀ e ∈ hm, e ∈ acc ∨ (e.1 = authName ∧
        ∃ p ∈ hs, lowerStr p.k = authName ∧ headerValueParse p.v = some e.2) := by
  induction hs with
  | nil =>
    intro acc hm h e he
    simp [getHeadersAux] at h
    subst h
    exact Or.inl he
  | cons p rest ih =>
    intro acc hm h e he
    by_cases hp : lowerStr p.k = authName
    · rw [getHeadersAux, if_pos hp] at h
      rcases hv : headerValueParse p.v with _ | w
      · rw [hv] at h
        simp at h
      · rw [hv] at h
        rcases ih (mapInsert acc authName w) hm h e he with h1 | ⟨h1, q, hq, hq2⟩
        · rcases mem_mapInsert acc authName w e h1 with h2 | h2
          · exact Or.inl h2
          · refine Or.inr ⟨by rw [h2], p, List.mem_cons_self p rest, hp, ?_⟩
            rw [h2, hv]
        · exact Or.inr ⟨h1, q, List.mem_cons_of_mem p hq, hq2⟩
    · rw [getHeadersAux, if_neg hp] at h
      rcases ih acc hm h e he with h1 | ⟨h1, q, hq, hq2⟩
      · exact Or.inl h1
      · exact Or.inr ⟨h1, q, List.mem_cons_of_mem p hq, hq2⟩

theorem getHeadersAux_skip (hs : List KvPair) :
    ∀ acc : List (Str × Str), (∀ p ∈ hs, lowerStr p.k ≠ authName) →
      getHeadersAux hs acc = some acc := by
  induction hs with
  | nil =>
    intro acc _
    rfl
  | cons p rest ih =>
    intro acc hnone
    have hp : lowerStr p.k ≠ authName := hnone p (List.mem_cons_self p rest)
    rw [getHeadersAux, if_neg hp]
    exact ih acc (fun q hq => hnone q (List.mem_cons_of_mem p hq))

theorem getHeaders_single (k v w : Str) (hk : lowerStr k = authName)
    (hv : headerValueParse v = some w) :
    getHeaders [⟨k, v⟩] = some [(authName, w)] := by
  rw [getHeaders, getHeadersAux, if_pos hk, hv]
  rfl

/-- Claim C4: in a GET request, a supplied header pair reaches the
outgoing request only when its name is recognized — every attached
non-default header entry is named `authorization` and carries the parsed
HTTP header value of some supplied pair whose lowercased name is
`authorization`; when no supplied pair has that name, the request carries
exactly the client defaults; and a pair named `Authorization` in any
letter case, with a parseable value, is attached. -/
theorem get_header_allowlist :
    (∀ (defaults : List (Str × Str)) (args : Get) (r : Request),
       get defaults args = some r → ∀ e ∈ r.headers,
         e ∈ defaults ∨ (e.1 = authName ∧
           ∃ p ∈ args.header, lowerStr p.k = authName ∧
             headerValueParse p.v = some e.2))
    ∧ (∀ (defaults : List (Str × Str)) (args : Get) (r : Request),
        get defaults args = some r →
        (∀ p ∈ args.header, lowerStr p.k ≠ authName) → r.headers = defaults)
    ∧ (∀ k v w : Str, lowerStr k = authName → headerValueParse v = some w →
        getHeaders [⟨k, v⟩] = some [(authName, w)]) := by
  refine ⟨?_, ?_, getHeaders_single⟩
  · intro defaults args r h e he
    rcases hg : getHeaders args.header with _ | hm
    · rw [get, hg] at h
      simp at h
    · rw [get, hg, Option.map_some'] at h
      rw [Option.some.injEq] at h
      rw [← h] at he
      rcases List.mem_append.mp he with h1 | h1
      · exact Or.inl h1
      · rcases getHeadersAux_mem args.header [] hm hg e h1 with h2 | h2
        · exact absurd h2 (List.not_mem_nil e)
        · exact Or.inr h2
  · intro defaults args r h hnone
    have hg : getHeaders args.header = some [] :=
      getHeadersAux_skip args.header [] hnone
    rw [get, hg, Option.map_some'] at h
    rw [Option.some.injEq] at h
    rw [← h]
    simp

/-- Witness for claim C4: a mixed-case `AuthoriZation` pair with a legal
value is recognized and attached as the `authorization` header. -/
theorem get_header_allowlist_wit :
    getHeaders [⟨str "AuthoriZation", str "Bearer token123"⟩]
      = some [(authName, str "Bearer token123")] :=
  get_header_allowlist.2.2 (str "AuthoriZation") (str "Bearer token123")
    (str "Bearer token123") (by decide) (by decide)

theorem mapLookup_mapInsert (m : List (Str × Str)) (k v key : Str) :
    mapLookup (mapInsert m k v) key
      = if k = key then some v else mapLookup m key := by
  induction m with
  | nil =>
    by_cases hk : k = key <;> simp [mapInsert, mapLookup, hk]
  | cons e rest ih =>
    by_cases he : e.1 = k
    · rw [mapInsert, if_pos he]
      by_cases hk : k = key
      · simp [mapLookup, hk]
      · have hek : e.1 ≠ key := fun h => hk (he ▸ h)
        simp [mapLookup, hk, hek, he]
    · rw [mapInsert, if_neg he]
      by_cases hek : e.1 = key
      · have hk : k ≠ key := fun h => he (h ▸ hek)
        simp [mapLookup, hek, hk]
      · simp [mapLookup, hek, ih]

theorem mapLookup_postBody_fold (ps : List KvPair) :
    ∀ (m : List (Str × Str)) (key : Str),
      mapLookup (ps.foldl (fun m p => mapInsert m p.k p.v) m) key
        = match lastValue key ps with
          | some w => some w
          | none => mapLookup m key := by
  induction ps with
  | nil =>
    intro m key
    rfl
  | cons p rest ih =>
    intro m key
    simp only [List.foldl_cons]
    rw [ih]
    rcases hl : lastValue key rest with _ | w
    · simp only [lastValue, hl]
      rw [mapLookup_mapInsert]
      by_cases hk : p.k = key
      · simp [hk]
      · simp [hk]
    · simp only [lastValue, hl]

/-- Claim C6: the request built by the `post` handler has method POST,
its body is the flat JSON object mapping each body-pair key to its value
with last-write-wins on repeated keys (the lookup of any key in the body
object is the value of the last supplied pair with that key), it carries
the `Content-Type: application/json` header, and the single pair
(`x`, `1`) yields exactly the object holding `x` bound to `1`. -/
theorem post_json_body :
    ∀ (defaults : List (Str × Str)) (args : Post),
      (post defaults args).method = Method.POST
      ∧ (post defaults args).jsonBody = some (postBody args.body)
      ∧ (∀ key : Str, mapLookup (postBody args.body) key = lastValue key args.body)
      ∧ contentTypeJson ∈ (post defaults args).headers
      ∧ postBody [⟨str "x", str "1"⟩] = [(str "x", str "1")] := by
  intro defaults args
  refine ⟨rfl, rfl, ?_, ?_, by decide⟩
  · intro key
    rw [postBody, mapLookup_postBody_fold args.body [] key]
    rcases lastValue key args.body with _ | w <;> rfl
  · simp [post]

/-- Claim C9: the `post` handler never reads the caller-supplied header
list — the built request is identical for any two supplied header lists,
and its header set is exactly the client defaults plus the JSON
Content-Type. -/
theorem post_ignores_caller_headers :
    ∀ (defaults : List (Str × Str)) (url : Str) (body h1 h2 : List KvPair),
      post defaults ⟨url, body, h1⟩ = post defaults ⟨url, body, h2⟩
      ∧ (post defaults ⟨url, body, h1⟩).headers
          = defaults ++ [contentTypeJson] :=
  fun _ _ _ _ _ => ⟨rfl, rfl⟩

/-- Claim C7: every render writes, in order, the version-and-status line,
a blank line, one `name: value` line per header in arrival order, a blank
line, and only then the body output; and when the render completes
without panicking, that trailing output is exactly what the content
formatter selected by the parsed content type produces for the body. -/
theorem print_resp_order :
    ∀ (pretty : Str → Option Str) (resp : Response), ∃ tail : List OutputItem,
      (print_resp pretty resp).out
        = OutputItem.statusLine resp.version resp.status :: OutputItem.blank ::
            (resp.headers.map (fun e => OutputItem.headerLine e.1 e.2)
              ++ OutputItem.blank :: tail)
      ∧ ((print_resp pretty resp).panicked = false →
          ∃ m, get_content_type resp = some m
            ∧ print_body pretty m resp.body = some tail) := by
  intro pretty resp
  rcases hct : get_content_type resp with _ | m
  · refine ⟨[], ?_, ?_⟩
    · simp [print_resp, hct, print_status, print_headers]
    · intro hp
      simp [print_resp, hct] at hp
  · rcases hpb : print_body pretty m resp.body with _ | items
    · refine ⟨[], ?_, ?_⟩
      · simp [print_resp, hct, hpb, print_status, print_headers]
      · intro hp
        simp [print_resp, hct, hpb] at hp
    · refine ⟨items, ?_, fun _ => ⟨m, rfl, hpb⟩⟩
      simp [print_resp, hct, hpb, print_status, print_headers]

/-- Witness for claim C7 at a concrete plain-text response: the render
opens with the status line, a blank, the one header line, a blank, and
the non-panicking tail is the formatter output. -/
theorem print_resp_order_wit : ∃ tail : List OutputItem,
    (print_resp some
        ⟨str "HTTP/1.1", str "200 OK",
          [(str "Content-Type", str "text/plain")], str "hi"⟩).out
      = OutputItem.statusLine (str "HTTP/1.1") (str "200 OK") :: OutputItem.blank ::
          (([(str "Content-Type", str "text/plain")] : List (Str × Str)).map
              (fun e => OutputItem.headerLine e.1 e.2)
            ++ OutputItem.blank :: tail)
    ∧ ((print_resp some
          ⟨str "HTTP/1.1", str "200 OK",
            [(str "Content-Type", str "text/plain")], str "hi"⟩).panicked = false →
        ∃ m, get_content_type
            ⟨str "HTTP/1.1", str "200 OK",
              [(str "Content-Type", str "text/plain")], str "hi"⟩ = some m
          ∧ print_body some m (str "hi") = some tail) :=
  print_resp_order some
    ⟨str "HTTP/1.1", str "200 OK", [(str "Content-Type", str "text/plain")], str "hi"⟩

/-- Claim C8: for a declared `json` subtype, the formatter first
pretty-prints the body and then highlights the pretty-printed text line
by line under the JSON grammar; when pretty-printing fails, the result is
a panic — no fallback to printing the raw body. -/
theorem print_body_json_fatal :
    ∀ (pretty : Str → Option Str) (m : Mime) (body : Str),
      m.subtype = str "json" →
      ((∀ t, pretty body = some t →
          print_body pretty (some m) body
            = some ((strLines t).map (OutputItem.highlighted (str "json"))))
        ∧ (pretty body = none → print_body pretty (some m) body = none)) := by
  intro pretty m body hm
  constructor
  · intro t ht
    simp [print_body, hm, ht, print_syntect]
  · intro ht
    simp [print_body, hm, ht]

/-- Witness for claim C8: with an identity pretty-printer the JSON body
is highlighted line by line; with a failing pretty-printer the formatter
panics rather than falling back to raw output. -/
theorem print_body_json_fatal_wit :
    print_body some (some ⟨str "application", str "json"⟩) (str "x")
        = some ((strLines (str "x")).map (OutputItem.highlighted (str "json")))
      ∧ print_body (fun _ => none) (some ⟨str "application", str "json"⟩)
          (str "x") = none :=
  ⟨(print_body_json_fatal some ⟨str "application", str "json"⟩ (str "x") rfl).1
      (str "x") rfl,
   (print_body_json_fatal (fun _ => none) ⟨str "application", str "json"⟩
      (str "x") rfl).2 rfl⟩

/-- Claim C10: content-type extraction is total exactly under the
precondition that a present `Content-Type` value is visible ASCII and
parses as a media type — with no such header it returns the absent
content type, with a conforming header it succeeds, and with a violating
header it panics (outer `none`), which makes the whole render end in a
panic rather than a reported error. -/
theorem get_content_type_total_iff :
    ∀ resp : Response,
      (headerGet resp.headers contentTypeName = none →
        get_content_type resp = some none)
      ∧ (∀ v, headerGet resp.headers contentTypeName = some v →
          ((get_content_type resp).isSome
            ↔ ∃ s, headerToStr v = some s ∧ (Mime.parse s).isSome))
      ∧ (∀ pretty : Str → Option Str, get_content_type resp = none →
          (print_resp pretty resp).panicked = true) := by
  intro resp
  refine ⟨?_, ?_, ?_⟩
  · intro h
    rw [get_content_type, h]
  · intro v hv
    rw [get_content_type, hv]
    rcases hs : headerToStr v with _ | s
    · simp [hs]
    · rcases hmp : Mime.parse s with _ | m
      · simp [hs, hmp]
      · simp [hs, hmp]
  · intro pretty h
    simp [print_resp, h]

/-- Witness for claim C10 at a concrete response whose `Content-Type`
value `nonsense` is visible ASCII but not a parseable media type: the
render panics. -/
theorem get_content_type_total_iff_wit :
    (print_resp some
        ⟨str "HTTP/1.1", str "200 OK",
          [(str "Content-Type", str "nonsense")], str ""⟩).panicked = true :=
  (get_content_type_total_iff
      ⟨str "HTTP/1.1", str "200 OK",
        [(str "Content-Type", str "nonsense")], str ""⟩).2.2 some (by decide)

end RustHttpie

